import Mathlib

/-!
Shallow embedding of the audio-summarizer repository (app.py,
src/summarizer_extractive.py, src/preprocess.py, src/asr_vosk.py).

Text is modelled as `List Char`.  Python floats are modelled as rationals
(`ℚ`).  The sentence-embedding model is abstracted as a `Scorer`: the code's
`model.encode` + mean + cosine-similarity pipeline produces one score per
sentence, and an exception in that pipeline is modelled by `none`.  Stateful
pieces (the process-wide model cache) are modelled by explicit state passing.
-/

namespace AudioSummarizer

abbrev Str := List Char

/-- Whitespace as Python's `str.strip` / regex `\s` see it (ASCII range). -/
def isWS (c : Char) : Bool :=
  c = ' ' || c = '\t' || c = '\n' || c = '\r' || c = Char.ofNat 11 || c = Char.ofNat 12

/-- Sentence-ending punctuation of `summarizer_extractive.py` (regex `[.!?]`). -/
def isPunct (c : Char) : Bool :=
  c = '.' || c = '!' || c = '?'

/-- Python `str.strip()`: drop whitespace from both ends. -/
def strip (s : Str) : Str :=
  ((s.dropWhile isWS).reverse.dropWhile isWS).reverse

/-- Does the accumulated (reversed) piece end in `.`, `!` or `?` -/
def endsPunct : Str → Bool
  | [] => false
  | c :: _ => isPunct c

/-- State machine for `re.split(r'(?<=[.!?])\s+', text)`: `gap = true` while
consuming the whitespace run of a split point, `acc` is the current piece in
reverse. -/
def splitSentAux (gap : Bool) (acc : Str) : Str → List Str
  | [] => [acc.reverse]
  | c :: cs =>
    if gap && isWS c then splitSentAux true acc cs
    else if isWS c && endsPunct acc then acc.reverse :: splitSentAux true [] cs
    else splitSentAux false (c :: acc) cs

/-- `re.split(r'(?<=[.!?])\s+', text)` from `sentence_tokenize`. -/
def splitSent (text : Str) : List Str :=
  splitSentAux false [] text

/-- `sentence_tokenize` of `summarizer_extractive.py` (lines 26-50). -/
def sentence_tokenize (text : Str) : List Str :=
  if strip text = [] then []
  else
    (((splitSent text).filter (fun s => !(strip s).isEmpty)).map strip).filter
      (fun s => 3 < s.length)

/-- The spec's description of sentence segmentation: split at `.` `!` `?`
followed by whitespace, trim each piece, drop empty and length-at-most-3
results. -/
def sentence_tokenize_spec (text : Str) : List Str :=
  ((splitSent text).map strip).filter (fun s => !s.isEmpty && 3 < s.length)

/-- A `{"sentence": ..., "score": ...}` dict of `summarize_extract`. -/
structure Highlight where
  sentence : Str
  score : ℚ
deriving DecidableEq, Repr

/-- The abstract embedding/scoring pipeline (`get_model` + `encode` + mean +
cosine similarity): one relevance score per sentence, `none` when the pipeline
raises an exception. -/
abbrev Scorer := List Str → Option (List ℚ)

/-- Result of `summarize_extract`, instrumented with the number of calls made
into the embedding/scoring pipeline. -/
structure SummarizeResult where
  summary : Str
  highlights : List Highlight
  embedCalls : Nat
deriving DecidableEq, Repr

/-- Python `" ".join(pieces)`. -/
def joinSpace : List Str → Str
  | [] => []
  | [s] => s
  | s :: rest => s ++ ' ' :: joinSpace rest

/-- `scores[i]` (always in range where used by the code). -/
def scoreAt (scores : List ℚ) (i : Nat) : ℚ :=
  scores.getD i 0

/-- Comparison used to model `np.argsort`: ascending score, ties by index. -/
def argLE (scores : List ℚ) (i j : Nat) : Prop :=
  scoreAt scores i < scoreAt scores j ∨ (scoreAt scores i = scoreAt scores j ∧ i ≤ j)

instance (scores : List ℚ) : DecidableRel (argLE scores) := fun i j => by
  unfold argLE; infer_instance

instance (scores : List ℚ) : IsTotal Nat (argLE scores) where
  total i j := by
    unfold argLE
    rcases lt_trichotomy (scoreAt scores i) (scoreAt scores j) with h | h | h
    · exact Or.inl (Or.inl h)
    · rcases Nat.le_total i j with hij | hij
      · exact Or.inl (Or.inr ⟨h, hij⟩)
      · exact Or.inr (Or.inr ⟨h.symm, hij⟩)
    · exact Or.inr (Or.inl h)

instance (scores : List ℚ) : IsTrans Nat (argLE scores) where
  trans i j k hij hjk := by
    unfold argLE at *
    rcases hij with h1 | ⟨h1, h1'⟩ <;> rcases hjk with h2 | ⟨h2, h2'⟩
    · exact Or.inl (h1.trans h2)
    · exact Or.inl (h2 ▸ h1)
    · exact Or.inl (h1 ▸ h2)
    · exact Or.inr ⟨h1.trans h2, h1'.trans h2'⟩

/-- `np.argsort(scores)`: indices sorted by ascending score. -/
def argsort (scores : List ℚ) : List Nat :=
  List.insertionSort (argLE scores) (List.range scores.length)

/-- Python `l[-k:]`: the last `k` elements, the whole list when `k = 0`. -/
def lastK (l : List Nat) (k : Nat) : List Nat :=
  if k = 0 then l else l.drop (l.length - k)

/-- `np.argsort(scores)[-k:][::-1]` (line 98 of `summarizer_extractive.py`). -/
def topIndices (scores : List ℚ) (k : Nat) : List Nat :=
  (lastK (argsort scores) k).reverse

/-- `summarize_extract` of `summarizer_extractive.py` (lines 53-120),
parameterised by the abstract embedding/scoring pipeline. -/
def summarize_extract (scorer : Scorer) (transcript_text : Str) (top_k : Nat) :
    SummarizeResult :=
  let sentences := sentence_tokenize transcript_text
  if sentences.length = 0 then ⟨[], [], 0⟩
  else if sentences.length ≤ top_k then
    ⟨strip transcript_text, sentences.map (fun s => ⟨s, 1⟩), 0⟩
  else
    match scorer sentences with
    | some scores =>
      let k := min top_k sentences.length
      let top := topIndices scores k
      ⟨joinSpace ((List.insertionSort (fun i j => i ≤ j) top).map
          (fun i => sentences.getD i [])),
       top.map (fun i => ⟨sentences.getD i [], scoreAt scores i⟩),
       1⟩
    | none =>
      ⟨joinSpace (sentences.take top_k),
       (sentences.take top_k).map (fun s => ⟨s, 0⟩),
       1⟩

/-! ### Keyword extraction (`app.py`, lines 36-68) -/

/-- ASCII alphabetic, the regex class `[a-zA-Z]`. -/
def isAlpha (c : Char) : Bool :=
  ('a' ≤ c && c ≤ 'z') || ('A' ≤ c && c ≤ 'Z')

/-- A regex word character (`\w`): what the `\b` boundaries test against. -/
def isWordChar (c : Char) : Bool :=
  isAlpha c || ('0' ≤ c && c ≤ '9') || c = '_'

/-- Python `str.lower()` restricted to ASCII letters. -/
def lowerChar (c : Char) : Char :=
  if 'A' ≤ c && c ≤ 'Z' then Char.ofNat (c.toNat + 32) else c

/-- State machine for `re.findall(r'\b[a-zA-Z]{3,}\b', s)`: `prevOk` records
whether the character before the current alphabetic run (held reversed in
`run`) was a non-word character or the start of the string; a run is emitted
when it is at least 3 long and flanked by word boundaries on both sides. -/
def findWordsAux (prevOk : Bool) (run : Str) : Str → List Str
  | [] => if prevOk && 3 ≤ run.length then [run.reverse] else []
  | c :: cs =>
    if isAlpha c then findWordsAux prevOk (c :: run) cs
    else
      (if prevOk && 3 ≤ run.length && !isWordChar c then [run.reverse] else []) ++
        findWordsAux (!isWordChar c) [] cs

/-- `re.findall(r'\b[a-zA-Z]{3,}\b', s)`. -/
def findWords (s : Str) : List Str :=
  findWordsAux true [] s

/-- The fixed stop-word set of `app.py` (lines 37-54). -/
def STOP_WORDS : List Str :=
  (["a", "about", "above", "after", "again", "against", "all", "am", "an",
    "and", "any", "are", "aren't", "as", "at", "be", "because", "been",
    "before", "being", "below", "between", "both", "but", "by", "can't",
    "cannot", "could", "couldn't", "did", "didn't", "do", "does", "doesn't",
    "doing", "don't", "down", "during", "each", "few", "for", "from",
    "further", "get", "got", "had", "hadn't", "has", "hasn't", "have",
    "haven't", "having", "he", "he'd", "he'll", "he's", "her", "here",
    "here's", "hers", "herself", "him", "himself", "his", "how", "how's",
    "i", "i'd", "i'll", "i'm", "i've", "if", "in", "into", "is", "isn't",
    "it", "it's", "its", "itself", "let's", "me", "more", "most", "mustn't",
    "my", "myself", "no", "nor", "not", "of", "off", "on", "once", "only",
    "or", "other", "ought", "our", "ours", "ourselves", "out", "over", "own",
    "same", "shan't", "she", "she'd", "she'll", "she's", "should",
    "shouldn't", "so", "some", "such", "than", "that", "that's", "the",
    "their", "theirs", "them", "themselves", "then", "there", "there's",
    "these", "they", "they'd", "they'll", "they're", "they've", "this",
    "those", "through", "to", "too", "under", "until", "up", "very", "was",
    "wasn't", "we", "we'd", "we'll", "we're", "we've", "were", "weren't",
    "what", "what's", "when", "when's", "where", "where's", "which", "while",
    "who", "who's", "whom", "why", "why's", "will", "with", "won't", "would",
    "wouldn't", "you", "you'd", "you'll", "you're", "you've", "your",
    "yours", "yourself", "yourselves", "just", "also", "like", "well",
    "really", "going", "know", "think", "right", "yeah", "yes", "one", "two",
    "much", "way", "thing", "things", "gonna", "actually", "even", "still",
    "kind", "sort"] : List String).map String.data

/-- First-occurrence order of the distinct elements: the key order of a Python
`Counter` built from the list. -/
def firstOccurAux (seen : List Str) : List Str → List Str
  | [] => []
  | w :: ws =>
    if seen.contains w then firstOccurAux seen ws
    else w :: firstOccurAux (w :: seen) ws

def firstOccur (ws : List Str) : List Str :=
  firstOccurAux [] ws

/-- The `Counter(filtered)` items, in insertion (first-occurrence) order. -/
def countItems (ws : List Str) : List (Str × Nat) :=
  (firstOccur ws).map (fun w => (w, ws.count w))

/-- The order `Counter.most_common` lists items in: descending count, ties by
first-occurrence position (the documented stable behaviour of
`heapq.nlargest`). `ws` is the first-occurrence key order. -/
def mcRel (ws : List Str) (a b : Str × Nat) : Prop :=
  b.2 < a.2 ∨ (a.2 = b.2 ∧ ws.indexOf a.1 ≤ ws.indexOf b.1)

instance (ws : List Str) : DecidableRel (mcRel ws) := fun a b => by
  unfold mcRel; infer_instance

instance (ws : List Str) : IsTotal (Str × Nat) (mcRel ws) where
  total a b := by
    unfold mcRel
    rcases lt_trichotomy a.2 b.2 with h | h | h
    · exact Or.inr (Or.inl h)
    · rcases Nat.le_total (ws.indexOf a.1) (ws.indexOf b.1) with hij | hij
      · exact Or.inl (Or.inr ⟨h, hij⟩)
      · exact Or.inr (Or.inr ⟨h.symm, hij⟩)
    · exact Or.inl (Or.inl h)

instance (ws : List Str) : IsTrans (Str × Nat) (mcRel ws) where
  trans a b c hab hbc := by
    unfold mcRel at *
    rcases hab with h1 | ⟨h1, h1'⟩ <;> rcases hbc with h2 | ⟨h2, h2'⟩
    · exact Or.inl (h2.trans h1)
    · exact Or.inl (h2 ▸ h1)
    · exact Or.inl (h1 ▸ h2)
    · exact Or.inr ⟨h2 ▸ h1, h1'.trans h2'⟩

/-- The tokens `extract_keywords` counts: `re.findall` over the lowercased
text. -/
def keywordTokens (text : Str) : List Str :=
  findWords (text.map lowerChar)

/-- The non-stop-word tokens. -/
def filteredTokens (text : Str) : List Str :=
  (keywordTokens text).filter (fun w => !STOP_WORDS.contains w)

/-- `extract_keywords` of `app.py` (lines 63-68); entries are
`(word, count)`. -/
def extract_keywords (text : Str) (top_n : Nat) : List (Str × Nat) :=
  (List.insertionSort (mcRel (firstOccur (filteredTokens text)))
    (countItems (filteredTokens text))).take top_n

/-! ### Stats (`app.py`, lines 71-94) -/

/-- Python `str.split()` with no argument: split on whitespace runs, no empty
pieces. -/
def splitWhitespaceAux (acc : Str) : Str → List Str
  | [] => if acc = [] then [] else [acc.reverse]
  | c :: cs =>
    if isWS c then
      if acc = [] then splitWhitespaceAux [] cs
      else acc.reverse :: splitWhitespaceAux [] cs
    else splitWhitespaceAux (c :: acc) cs

def splitWhitespace (s : Str) : List Str :=
  splitWhitespaceAux [] s

/-- Number of matches of `re.findall(r'[.!?]+', s)`: maximal runs of
sentence-ending punctuation. `inRun` records whether the previous character
was such punctuation. -/
def punctRunsAux (inRun : Bool) : Str → Nat
  | [] => 0
  | c :: cs =>
    if isPunct c then (if inRun then 0 else 1) + punctRunsAux true cs
    else punctRunsAux false cs

def punctRuns (s : Str) : Nat :=
  punctRunsAux false s

/-- A recognizer utterance: `{'text': ..., 'start': ..., 'end': ...}` with the
timestamps optional. -/
structure Segment where
  text : Str
  start : Option ℚ
  end_ : Option ℚ
deriving DecidableEq, Repr

/-- Round half to even, Python's `round` on exact values. -/
def rhe (q : ℚ) : ℤ :=
  if q - ⌊q⌋ < 1/2 then ⌊q⌋
  else if (1 : ℚ)/2 < q - ⌊q⌋ then ⌊q⌋ + 1
  else if ⌊q⌋ % 2 = 0 then ⌊q⌋ else ⌊q⌋ + 1

/-- Python `round(q, 1)` on exact values. -/
def round1 (q : ℚ) : ℚ :=
  (rhe (10 * q) : ℚ) / 10

structure Stats where
  word_count : Nat
  sentence_count : Nat
  char_count : Nat
  duration_sec : ℚ
  reading_time_min : ℤ
deriving DecidableEq, Repr

/-- `compute_stats` of `app.py` (lines 71-94). -/
def compute_stats (transcript : Str) (segments : List Segment) : Stats :=
  let words := splitWhitespace transcript
  let word_count := words.length
  let sentence_count := if punctRuns transcript = 0 then 1 else punctRuns transcript
  let char_count := transcript.length
  let duration_sec : ℚ :=
    match segments.getLast? with
    | some last_seg =>
      match last_seg.end_ with
      | some e => e
      | none => 0
    | none => 0
  let reading_time_min : ℤ := max 1 (rhe ((word_count : ℚ) / 200))
  ⟨word_count, sentence_count, char_count, round1 duration_sec, reading_time_min⟩

/-! ### Audio normalization (`src/preprocess.py`, lines 32-40) -/

/-- `np.max(np.abs(y))`, with the numpy convention folded to `0` on the empty
signal. -/
def maxAbs (y : List ℚ) : ℚ :=
  y.foldr (fun a m => max |a| m) 0

/-- The amplitude-normalization step of `save_wav_mono_16k`: scale so the peak
absolute sample is `1`, or fail when the signal is entirely silent. -/
def save_wav_normalize (y : List ℚ) : Except Str (List ℚ) :=
  if 0 < maxAbs y then .ok (y.map (fun a => a / maxAbs y))
  else .error "Audio file contains only silence".data

/-! ### WAV validation (`src/asr_vosk.py`, lines 36-46) and the orchestrator's
translation of format errors (`app.py`, lines 170-171) -/

structure WavInfo where
  nchannels : Nat
  sampwidth : Nat
  framerate : Nat
deriving DecidableEq, Repr

def natStr (n : Nat) : Str :=
  (Nat.repr n).data

/-- The format checks of `transcribe_file`. -/
def validate_wav (w : WavInfo) : Except Str Unit :=
  if w.nchannels ≠ 1 then
    .error ("WAV must be mono (1 channel), got ".data ++ natStr w.nchannels ++
      " channels".data)
  else if w.sampwidth ≠ 2 then
    .error ("WAV must be 16-bit (2 bytes), got ".data ++ natStr w.sampwidth ++
      " bytes".data)
  else if w.framerate ≠ 16000 then
    .error ("WAV must be 16kHz, got ".data ++ natStr w.framerate ++ "Hz".data)
  else .ok ()

/-- `app.py` line 170-171: a `ValueError` message `e` becomes the 400 response
`{"error": "Audio format error: " + e}`. -/
def processFormatError (e : Str) : Nat × Str :=
  (400, "Audio format error: ".data ++ e)

/-! ### The process-wide model cache (`summarizer_extractive.py`, lines 8-23) -/

/-- The module state: the global `_model`, instrumented with the number of
`SentenceTransformer(...)` constructions performed. -/
structure ModelCache (M : Type) where
  model : Option M
  loads : Nat
deriving DecidableEq, Repr

/-- `get_model`: load on first use, return the cached handle afterwards.
`load` is the (successful) `SentenceTransformer(SENTENCE_MODEL_NAME)`
construction. -/
def get_model (load : M) (st : ModelCache M) : ModelCache M × M :=
  match st.model with
  | some m => (st, m)
  | none => (⟨some load, st.loads + 1⟩, load)

/-- The state after `n` successive `get_model` calls from a fresh process. -/
def get_model_iter (load : M) : Nat → ModelCache M
  | 0 => ⟨none, 0⟩
  | n + 1 => (get_model load (get_model_iter load n)).1

/-! ## Helper lemmas -/

theorem maxAbs_nonneg (y : List ℚ) : 0 ≤ maxAbs y := by
  induction y with
  | nil => simp [maxAbs]
  | cons a l ih =>
    simp only [maxAbs, List.foldr_cons] at *
    exact le_trans ih (le_max_right _ _)

theorem maxAbs_map_div (y : List ℚ) (m : ℚ) (hm : 0 < m) :
    maxAbs (y.map (fun a => a / m)) = maxAbs y / m := by
  induction y with
  | nil => simp [maxAbs]
  | cons a l ih =>
    simp only [maxAbs, List.map_cons, List.foldr_cons] at *
    rw [ih, abs_div, abs_of_pos hm, max_div_div_right hm.le]

/-! ## C7: silence policy of the audio normalizer -/

/-- C7: `save_wav_mono_16k` raises an error exactly when the decoded signal's
maximum absolute amplitude is zero; otherwise it scales the signal so the peak
absolute sample equals 1 before writing. -/
theorem save_wav_silence_policy (y : List ℚ) :
    (maxAbs y = 0 →
      save_wav_normalize y = .error "Audio file contains only silence".data) ∧
    (maxAbs y ≠ 0 →
      save_wav_normalize y = .ok (y.map (fun a => a / maxAbs y)) ∧
      maxAbs (y.map (fun a => a / maxAbs y)) = 1) := by
  constructor
  · intro h
    simp [save_wav_normalize, h]
  · intro h
    have hpos : 0 < maxAbs y := lt_of_le_of_ne (maxAbs_nonneg y) (Ne.symm h)
    refine ⟨by simp [save_wav_normalize, hpos], ?_⟩
    rw [maxAbs_map_div y _ hpos, div_self h]

/-! ## C8: strict WAV format validation -/

/-- C8: `transcribe_file` fails with a format error exactly when the waveform
violates mono/16-bit/16kHz, and a 2-channel WAV yields a 400 response whose
message contains "mono" and "2 channels". -/
theorem validate_wav_props (w : WavInfo) :
    (validate_wav w = .ok () ↔
      (w.nchannels = 1 ∧ w.sampwidth = 2 ∧ w.framerate = 16000)) ∧
    (w.nchannels = 2 →
      ∃ e, validate_wav w = .error e ∧
        List.IsInfix "mono".data e ∧ List.IsInfix "2 channels".data e ∧
        (processFormatError e).1 = 400 ∧
        List.IsInfix "mono".data (processFormatError e).2 ∧
        List.IsInfix "2 channels".data (processFormatError e).2) := by
  constructor
  · constructor
    · intro h
      by_cases h1 : w.nchannels = 1
      · by_cases h2 : w.sampwidth = 2
        · by_cases h3 : w.framerate = 16000
          · exact ⟨h1, h2, h3⟩
          · simp [validate_wav, h1, h2, h3] at h
        · simp [validate_wav, h1, h2] at h
      · simp [validate_wav, h1] at h
    · rintro ⟨h1, h2, h3⟩
      simp [validate_wav, h1, h2, h3]
  · intro h2ch
    refine ⟨"WAV must be mono (1 channel), got ".data ++ natStr 2 ++
      " channels".data, ?_, ?_, ?_, rfl, ?_, ?_⟩
    · simp [validate_wav, h2ch]
    · exact ⟨"WAV must be ".data, " (1 channel), got 2 channels".data, by decide⟩
    · exact ⟨"WAV must be mono (1 channel), got ".data, [], by decide⟩
    · exact ⟨"Audio format error: WAV must be ".data,
        " (1 channel), got 2 channels".data, by decide⟩
    · exact ⟨"Audio format error: WAV must be mono (1 channel), got ".data, [],
        by decide⟩

/-! ## C6: transcript statistics -/

/-- C6: `compute_stats` returns the whitespace-token count, the punctuation-run
count with minimum 1, the character count, the last segment's end time (else 0)
rounded to 1 decimal, and `round(word_count / 200)` with minimum 1, which is
always at least 1. -/
theorem compute_stats_props (transcript : Str) (segments : List Segment) :
    compute_stats transcript segments =
      { word_count := (splitWhitespace transcript).length,
        sentence_count := max 1 (punctRuns transcript),
        char_count := transcript.length,
        duration_sec := round1 (((segments.getLast?).bind Segment.end_).getD 0),
        reading_time_min :=
          max 1 (rhe (((splitWhitespace transcript).length : ℚ) / 200)) } ∧
    1 ≤ (compute_stats transcript segments).reading_time_min := by
  constructor
  · simp only [compute_stats, Stats.mk.injEq]
    refine ⟨trivial, ?_, trivial, ?_, trivial⟩
    · rcases h : punctRuns transcript with _ | m <;> simp [h]
    · rcases h : segments.getLast? with _ | seg
      · simp
      · rcases he : seg.end_ with _ | e <;> simp [he]
  · simp only [compute_stats]
    exact le_max_left _ _

/-! ## C9: the embedding model is loaded at most once per process -/

/-- C9: the first `get_model` call performs the load and stores the handle;
after any positive number of calls exactly one load has happened, and the next
call returns the same cached handle without loading again. -/
theorem get_model_caches (M : Type) (load : M) (n : Nat) (h : 1 ≤ n) :
    get_model_iter load n = ⟨some load, 1⟩ ∧
    get_model load (get_model_iter load n) = (⟨some load, 1⟩, load) := by
  have key : ∀ k : Nat, 1 ≤ k → get_model_iter load k = ⟨some load, 1⟩ := by
    intro k hk
    induction k with
    | zero => omega
    | succ j ihj =>
      rcases Nat.eq_zero_or_pos j with h0 | hpos
      · subst h0; rfl
      · show (get_model load (get_model_iter load j)).1 = _
        rw [ihj hpos]
        rfl
  refine ⟨key n h, ?_⟩
  rw [key n h]
  rfl

/-- Witness for C9 at a concrete input: three calls, one load. -/
theorem get_model_caches_witness :
    get_model_iter (42 : Nat) 3 = ⟨some 42, 1⟩ ∧
    get_model (42 : Nat) (get_model_iter (42 : Nat) 3) = (⟨some 42, 1⟩, 42) :=
  get_model_caches Nat 42 3 (by decide)

/-! ## C1: short-circuit path of `summarize_extract` -/

/-- C1: when the tokenization yields between 1 and `top_k` sentences,
`summarize_extract` returns the trimmed transcript, one highlight per sentence
in original order with score 1, and makes no embedding call (for any scorer). -/
theorem summarize_extract_short (scorer : Scorer) (text : Str) (top_k : Nat)
    (h1 : 1 ≤ (sentence_tokenize text).length)
    (h2 : (sentence_tokenize text).length ≤ top_k) :
    summarize_extract scorer text top_k =
      ⟨strip text, (sentence_tokenize text).map (fun s => ⟨s, 1⟩), 0⟩ := by
  simp only [summarize_extract]
  rw [if_neg (by omega), if_pos h2]

/-- Witness for C1: two sentences, `top_k = 5`, a failing scorer. -/
theorem summarize_extract_short_witness :
    summarize_extract (fun _ => none) "Hello there. It works well.".data 5 =
      ⟨"Hello there. It works well.".data,
       [⟨"Hello there.".data, 1⟩, ⟨"It works well.".data, 1⟩], 0⟩ := by
  rw [summarize_extract_short (fun _ => none) "Hello there. It works well.".data 5
    (by decide) (by decide)]
  decide

/-! ## C2: fallback path of `summarize_extract` -/

/-- C2: with more than `top_k` sentences and a failing embedding/scoring step,
`summarize_extract` propagates no exception and returns the first `top_k`
sentences joined with single spaces, each highlighted with score 0. -/
theorem summarize_extract_fallback (scorer : Scorer) (text : Str) (top_k : Nat)
    (hk : top_k < (sentence_tokenize text).length)
    (herr : scorer (sentence_tokenize text) = none) :
    summarize_extract scorer text top_k =
      ⟨joinSpace ((sentence_tokenize text).take top_k),
       ((sentence_tokenize text).take top_k).map (fun s => ⟨s, 0⟩), 1⟩ := by
  simp only [summarize_extract]
  rw [if_neg (by omega), if_neg (by omega), herr]

/-- Witness for C2: the spec scenario, six sentences and `top_k = 5`. -/
theorem summarize_extract_fallback_witness :
    summarize_extract (fun _ => none)
      "One fine day. Two cats nap. Three dogs run. Four birds sing. Five fish swim. Six bees buzz.".data
      5 =
      ⟨"One fine day. Two cats nap. Three dogs run. Four birds sing. Five fish swim.".data,
       [⟨"One fine day.".data, 0⟩, ⟨"Two cats nap.".data, 0⟩,
        ⟨"Three dogs run.".data, 0⟩, ⟨"Four birds sing.".data, 0⟩,
        ⟨"Five fish swim.".data, 0⟩], 1⟩ := by
  rw [summarize_extract_fallback (fun _ => none)
    "One fine day. Two cats nap. Three dogs run. Four birds sing. Five fish swim. Six bees buzz.".data
    5 (by decide) rfl]
  decide

/-! ## C10: the number of highlights on every path -/

/-- C10: for any scorer that yields one score per sentence and any
`top_k ≥ 1`, the highlights list has exactly `min n top_k` entries, where `n`
is the number of tokenized sentences. -/
theorem summarize_extract_highlight_count (scorer : Scorer) (text : Str)
    (top_k : Nat)
    (hscorer : ∀ ss l, scorer ss = some l → l.length = ss.length)
    (hk : 1 ≤ top_k) :
    (summarize_extract scorer text top_k).highlights.length =
      min (sentence_tokenize text).length top_k := by
  by_cases h0 : (sentence_tokenize text).length = 0
  · simp only [summarize_extract]
    rw [if_pos h0]
    simp only [SummarizeResult.highlights, List.length_nil]
    omega
  · by_cases hle : (sentence_tokenize text).length ≤ top_k
    · simp only [summarize_extract]
      rw [if_neg h0, if_pos hle]
      simp only [SummarizeResult.highlights, List.length_map]
      omega
    · push_neg at hle
      rcases hsc : scorer (sentence_tokenize text) with _ | scores
      · simp only [summarize_extract]
        rw [if_neg h0, if_neg (by omega), hsc]
        simp only [SummarizeResult.highlights, List.length_map, List.length_take]
        omega
      · have hlen := hscorer _ _ hsc
        simp only [summarize_extract]
        rw [if_neg h0, if_neg (by omega), hsc]
        simp only [SummarizeResult.highlights, List.length_map]
        unfold topIndices lastK argsort
        rw [if_neg (by omega), List.length_reverse, List.length_drop,
          List.length_insertionSort, List.length_range]
        omega

/-- Witness for C10: three sentences, `top_k = 2`, a constant-score scorer. -/
theorem summarize_extract_highlight_count_witness :
    (summarize_extract (fun ss => some (ss.map (fun _ => (0 : ℚ))))
        "Cats meow loud. Dogs bark louder. Fish swim quiet.".data 2).highlights.length =
      min (sentence_tokenize "Cats meow loud. Dogs bark louder. Fish swim quiet.".data).length 2 :=
  summarize_extract_highlight_count (fun ss => some (ss.map (fun _ => (0 : ℚ))))
    "Cats meow loud. Dogs bark louder. Fish swim quiet.".data 2
    (by
      intro ss l h
      injection h with h2
      subst h2
      simp)
    (by decide)

/-! ## C4: sentence segmentation matches the spec's description -/

theorem isWS_not_punct {c : Char} (h : isWS c = true) : isPunct c = false := by
  simp only [isWS, Bool.or_eq_true, decide_eq_true_eq] at h
  rcases h with ⟨⟨⟨⟨h | h⟩ | h⟩ | h⟩ | h⟩ | h <;> subst h <;> decide

theorem splitSentAux_all_ws (cs : Str) : ∀ acc : Str,
    (∀ c ∈ acc, isWS c = true) → (∀ c ∈ cs, isWS c = true) →
    splitSentAux false acc cs = [acc.reverse ++ cs] := by
  induction cs with
  | nil =>
    intro acc hacc hcs
    simp [splitSentAux]
  | cons c cs ih =>
    intro acc hacc hcs
    have hnp : endsPunct acc = false := by
      cases acc with
      | nil => rfl
      | cons d ds =>
        simp only [endsPunct]
        exact isWS_not_punct (hacc d (List.mem_cons_self d ds))
    simp only [splitSentAux, Bool.false_and, hnp, Bool.and_false, if_neg Bool.false_ne_true]
    rw [ih (c :: acc)
      (by
        intro x hx
        rcases List.mem_cons.mp hx with rfl | hx
        · exact hcs x (List.mem_cons_self x cs)
        · exact hacc x hx)
      (fun x hx => hcs x (List.mem_cons_of_mem c hx))]
    simp

theorem strip_eq_nil_iff {s : Str} : strip s = [] ↔ ∀ c ∈ s, isWS c = true := by
  unfold strip
  rw [List.reverse_eq_nil_iff, List.dropWhile_eq_nil_iff]
  constructor
  · intro h c hc
    have hs := List.takeWhile_append_dropWhile (p := isWS) (l := s)
    rw [← hs] at hc
    rcases List.mem_append.mp hc with hc | hc
    · exact List.mem_takeWhile_imp hc
    · exact h c (by simpa using hc)
  · intro h c hc
    rw [List.mem_reverse] at hc
    exact h c ((List.dropWhile_sublist isWS).subset hc)

/-- C4: `sentence_tokenize` is exactly the spec's split-trim-drop pipeline, and
when it yields no sentence `summarize_extract` returns an empty summary and no
highlights. -/
theorem sentence_tokenize_matches_spec (text : Str) (scorer : Scorer)
    (top_k : Nat) :
    sentence_tokenize text = sentence_tokenize_spec text ∧
    (sentence_tokenize text = [] →
      summarize_extract scorer text top_k = ⟨[], [], 0⟩) := by
  constructor
  · by_cases h : strip text = []
    · have hws : ∀ c ∈ text, isWS c = true := strip_eq_nil_iff.mp h
      have hsplit : splitSent text = [text] := by
        unfold splitSent
        simpa using splitSentAux_all_ws text [] (by simp) hws
      unfold sentence_tokenize sentence_tokenize_spec
      rw [if_pos h, hsplit]
      simp [h]
    · unfold sentence_tokenize sentence_tokenize_spec
      rw [if_neg h]
      simp only [List.filter_map, List.filter_filter]
      congr 1
      apply List.filter_congr
      intro a _
      simp [Function.comp, Bool.and_comm]
  · intro h
    simp [summarize_extract, h]

/-! ## C5: keyword extraction -/

theorem findWordsAux_mem (cs : Str) : ∀ (p : Bool) (run : Str),
    (∀ c ∈ run, isAlpha c = true) →
    ∀ w ∈ findWordsAux p run cs,
      3 ≤ w.length ∧ ∀ c ∈ w, isAlpha c = true ∧ (c ∈ run ∨ c ∈ cs) := by
  induction cs with
  | nil =>
    intro p run hrun w hw
    simp only [findWordsAux] at hw
    split at hw
    · next hcond =>
      rcases List.mem_singleton.mp hw with rfl
      simp only [Bool.and_eq_true, decide_eq_true_eq] at hcond
      refine ⟨by simpa using hcond.2, ?_⟩
      intro c hc
      rw [List.mem_reverse] at hc
      exact ⟨hrun c hc, Or.inl hc⟩
    · cases hw
  | cons c cs ih =>
    intro p run hrun w hw
    simp only [findWordsAux] at hw
    split at hw
    · next ha =>
      have hres := ih p (c :: run)
        (by
          intro x hx
          rcases List.mem_cons.mp hx with rfl | hx
          · exact ha
          · exact hrun x hx)
        w hw
      refine ⟨hres.1, ?_⟩
      intro d hd
      rcases hres.2 d hd with ⟨hal, hmem⟩
      refine ⟨hal, ?_⟩
      rcases hmem with hm | hm
      · rcases List.mem_cons.mp hm with rfl | hm
        · exact Or.inr (List.mem_cons_self _ _)
        · exact Or.inl hm
      · exact Or.inr (List.mem_cons_of_mem _ hm)
    · rcases List.mem_append.mp hw with hw1 | hw1
      · split at hw1
        · next hcond =>
          rcases List.mem_singleton.mp hw1 with rfl
          simp only [Bool.and_eq_true, decide_eq_true_eq] at hcond
          refine ⟨by simpa using hcond.1.2, ?_⟩
          intro d hd
          rw [List.mem_reverse] at hd
          exact ⟨hrun d hd, Or.inl hd⟩
        · cases hw1
      · have hres := ih (!isWordChar c) [] (by simp) w hw1
        refine ⟨hres.1, fun d hd => ⟨(hres.2 d hd).1, ?_⟩⟩
        rcases (hres.2 d hd).2 with hm | hm
        · cases hm
        · exact Or.inr (List.mem_cons_of_mem _ hm)

theorem lowerChar_lower (d : Char) (h : isAlpha (lowerChar d) = true) :
    'a' ≤ lowerChar d ∧ lowerChar d ≤ 'z' := by
  by_cases hU : 'A' ≤ d ∧ d ≤ 'Z'
  · have hl : lowerChar d = Char.ofNat (d.toNat + 32) := by
      unfold lowerChar
      rw [if_pos (by simp only [Bool.and_eq_true, decide_eq_true_eq]; exact hU)]
    rw [hl]
    have h1 : 65 ≤ d.toNat := hU.1
    have h2 : d.toNat ≤ 90 := hU.2
    generalize d.toNat = m at h1 h2
    interval_cases m <;> exact ⟨by decide, by decide⟩
  · have hl : lowerChar d = d := by
      unfold lowerChar
      rw [if_neg (by simpa using hU)]
    rw [hl] at h ⊢
    simp only [isAlpha, Bool.or_eq_true, Bool.and_eq_true, decide_eq_true_eq] at h
    rcases h with h | h
    · exact h
    · exact absurd h hU

theorem firstOccurAux_subset (l : List Str) : ∀ seen, ∀ w ∈ firstOccurAux seen l,
    w ∈ l := by
  induction l with
  | nil =>
    intro seen w hw
    cases hw
  | cons x xs ih =>
    intro seen w hw
    simp only [firstOccurAux] at hw
    split at hw
    · exact List.mem_cons_of_mem _ (ih seen w hw)
    · rcases List.mem_cons.mp hw with rfl | hw
      · exact List.mem_cons_self _ _
      · exact List.mem_cons_of_mem _ (ih _ w hw)

/-- C5: `extract_keywords` emits at most `top_n` entries; every entry is a
non-stop-word token of at least 3 lowercase letters paired with its frequency;
entries are ordered by descending count with ties broken by first-occurrence
order. -/
theorem extract_keywords_props (text : Str) (top_n : Nat) :
    (extract_keywords text top_n).length ≤ top_n ∧
    (∀ p ∈ extract_keywords text top_n,
      p.1 ∉ STOP_WORDS ∧ 3 ≤ p.1.length ∧ (∀ c ∈ p.1, 'a' ≤ c ∧ c ≤ 'z') ∧
      p.2 = (filteredTokens text).count p.1) ∧
    List.Pairwise (mcRel (firstOccur (filteredTokens text)))
      (extract_keywords text top_n) ∧
    List.Pairwise (fun a b : Str × Nat => b.2 ≤ a.2)
      (extract_keywords text top_n) := by
  have hsorted : List.Pairwise (mcRel (firstOccur (filteredTokens text)))
      (extract_keywords text top_n) := by
    unfold extract_keywords
    exact (List.sorted_insertionSort _ _).sublist (List.take_sublist _ _)
  have htok : ∀ w ∈ filteredTokens text,
      w ∉ STOP_WORDS ∧ 3 ≤ w.length ∧ ∀ c ∈ w, 'a' ≤ c ∧ c ≤ 'z' := by
    intro w hw
    unfold filteredTokens at hw
    rcases List.mem_filter.mp hw with ⟨hmem, hstop⟩
    unfold keywordTokens findWords at hmem
    refine ⟨by simpa using hstop,
      (findWordsAux_mem _ _ _ (by simp) w hmem).1, ?_⟩
    intro c hc
    have h2 := (findWordsAux_mem _ _ _ (by simp) w hmem).2 c hc
    have hcin : c ∈ text.map lowerChar := by
      rcases h2.2 with hcr | hcr
      · cases hcr
      · exact hcr
    rcases List.mem_map.mp hcin with ⟨d, _, rfl⟩
    exact lowerChar_lower d h2.1
  refine ⟨?_, ?_, hsorted, hsorted.imp ?_⟩
  · unfold extract_keywords
    exact List.length_take_le _ _
  · intro p hp
    have hp2 : p ∈ countItems (filteredTokens text) :=
      (List.perm_insertionSort _ _).subset (List.take_subset _ _ hp)
    unfold countItems at hp2
    rcases List.mem_map.mp hp2 with ⟨w, hw, rfl⟩
    have hres := htok w (firstOccurAux_subset _ _ w hw)
    exact ⟨hres.1, hres.2.1, hres.2.2, rfl⟩
  · intro a b hab
    rcases hab with hlt | ⟨heq, _⟩
    · exact hlt.le
    · exact heq.ge

/-! ## C3: ordering invariants of the embedding path -/

theorem lastK_sublist (l : List Nat) (k : Nat) : List.Sublist (lastK l k) l := by
  unfold lastK
  split
  · exact List.Sublist.refl l
  · exact List.drop_sublist _ _

theorem argsort_perm (scores : List ℚ) :
    (argsort scores).Perm (List.range scores.length) :=
  List.perm_insertionSort _ _

theorem argsort_sorted (scores : List ℚ) :
    List.Pairwise (argLE scores) (argsort scores) :=
  List.sorted_insertionSort _ _

theorem topIndices_pairwise (scores : List ℚ) (k : Nat) :
    List.Pairwise (fun i j => argLE scores j i) (topIndices scores k) := by
  unfold topIndices
  rw [List.pairwise_reverse]
  exact (argsort_sorted scores).sublist (lastK_sublist _ _)

theorem topIndices_nodup (scores : List ℚ) (k : Nat) :
    (topIndices scores k).Nodup := by
  unfold topIndices
  rw [List.nodup_reverse]
  have h1 : (argsort scores).Nodup :=
    (argsort_perm scores).symm.nodup (List.nodup_range _)
  exact h1.sublist (lastK_sublist _ _)

theorem topIndices_lt (scores : List ℚ) (k : Nat) :
    ∀ i ∈ topIndices scores k, i < scores.length := by
  intro i hi
  unfold topIndices at hi
  rw [List.mem_reverse] at hi
  have h1 := (lastK_sublist (argsort scores) k).subset hi
  have h2 := (argsort_perm scores).subset h1
  simpa using h2

theorem map_getD_sublist {α : Type} (d : α) :
    ∀ (l : List α) (idx : List Nat), List.Pairwise (· < ·) idx →
      (∀ i ∈ idx, i < l.length) →
      List.Sublist (idx.map (fun i => l.getD i d)) l := by
  intro l
  induction l with
  | nil =>
    intro idx hpw hbound
    cases idx with
    | nil => simp
    | cons i rest => exact absurd (hbound i (List.mem_cons_self _ _)) (by simp)
  | cons a l ih =>
    intro idx hpw hbound
    cases idx with
    | nil => simp
    | cons i rest =>
      rcases List.pairwise_cons.mp hpw with ⟨hgt, hrest⟩
      cases i with
      | zero =>
        simp only [List.map_cons, List.getD_cons_zero]
        have hmap : rest.map (fun j => (a :: l).getD j d) =
            (rest.map (fun j => j - 1)).map (fun j => l.getD j d) := by
          rw [List.map_map]
          apply List.map_congr_left
          intro j hj
          obtain ⟨j', rfl⟩ : ∃ j', j = j' + 1 := ⟨j - 1, by have := hgt j hj; omega⟩
          simp [Function.comp]
        rw [hmap]
        apply List.Sublist.cons₂
        apply ih
        · refine List.pairwise_map.mpr (hrest.imp_of_mem ?_)
          intro x y hx _ hxy
          have := hgt x hx
          omega
        · intro j hj
          rcases List.mem_map.mp hj with ⟨x, hx, rfl⟩
          have h1 := hgt x hx
          have h2 := hbound x (List.mem_cons_of_mem _ hx)
          simp only [List.length_cons] at h2
          omega
      | succ m =>
        have hpos : ∀ j ∈ (m + 1) :: rest, 1 ≤ j := by
          intro j hj
          rcases List.mem_cons.mp hj with rfl | hj
          · omega
          · have := hgt j hj
            omega
        have hmap : ((m + 1) :: rest).map (fun j => (a :: l).getD j d) =
            (((m + 1) :: rest).map (fun j => j - 1)).map (fun j => l.getD j d) := by
          rw [List.map_map]
          apply List.map_congr_left
          intro j hj
          obtain ⟨j', rfl⟩ : ∃ j', j = j' + 1 := ⟨j - 1, by have := hpos j hj; omega⟩
          simp [Function.comp]
        rw [hmap]
        apply List.Sublist.cons
        apply ih
        · refine List.pairwise_map.mpr (hpw.imp_of_mem ?_)
          intro x y hx _ hxy
          have := hpos x hx
          omega
        · intro j hj
          rcases List.mem_map.mp hj with ⟨x, hx, rfl⟩
          have h1 := hpos x hx
          have h2 := hbound x hx
          simp only [List.length_cons] at h2
          omega

/-- C3: on the embedding path the highlights are the selected indices in
non-increasing score order, and the summary is the same selected sentences
re-ordered by original position — a sublist of the tokenized sentence list. -/
theorem summarize_extract_embed_order (scorer : Scorer) (text : Str)
    (top_k : Nat) (scores : List ℚ)
    (hk : top_k < (sentence_tokenize text).length)
    (hsc : scorer (sentence_tokenize text) = some scores)
    (hlen : scores.length = (sentence_tokenize text).length) :
    ∃ sel ord : List Nat,
      (summarize_extract scorer text top_k).highlights =
        sel.map (fun i => ⟨(sentence_tokenize text).getD i [], scoreAt scores i⟩) ∧
      List.Pairwise (fun a b : ℚ => b ≤ a)
        ((summarize_extract scorer text top_k).highlights.map Highlight.score) ∧
      ord.Perm sel ∧
      List.Pairwise (fun i j : Nat => i ≤ j) ord ∧
      (summarize_extract scorer text top_k).summary =
        joinSpace (ord.map (fun i => (sentence_tokenize text).getD i [])) ∧
      List.Sublist (ord.map (fun i => (sentence_tokenize text).getD i []))
        (sentence_tokenize text) := by
  have hred : summarize_extract scorer text top_k =
      ⟨joinSpace ((List.insertionSort (fun i j => i ≤ j)
          (topIndices scores (min top_k (sentence_tokenize text).length))).map
          (fun i => (sentence_tokenize text).getD i [])),
        (topIndices scores (min top_k (sentence_tokenize text).length)).map
          (fun i => ⟨(sentence_tokenize text).getD i [], scoreAt scores i⟩),
        1⟩ := by
    simp only [summarize_extract]
    rw [if_neg (by omega), if_neg (by omega), hsc]
  refine ⟨topIndices scores (min top_k (sentence_tokenize text).length),
    List.insertionSort (fun i j => i ≤ j)
      (topIndices scores (min top_k (sentence_tokenize text).length)),
    ?_, ?_, ?_, ?_, ?_, ?_⟩
  · rw [hred]
  · rw [hred]
    simp only [SummarizeResult.highlights, List.map_map]
    refine List.pairwise_map.mpr
      ((topIndices_pairwise scores _).imp ?_)
    intro i j hij
    rcases hij with h | ⟨h, _⟩
    · exact h.le
    · exact h.le
  · exact List.perm_insertionSort _ _
  · exact List.sorted_insertionSort _ _
  · rw [hred]
  · have hnd : (List.insertionSort (fun i j => i ≤ j)
        (topIndices scores (min top_k (sentence_tokenize text).length))).Nodup :=
      (List.perm_insertionSort _ _).symm.nodup (topIndices_nodup scores _)
    have hsorted := List.Sorted.lt_of_le (List.sorted_insertionSort
      (fun i j => i ≤ j)
      (topIndices scores (min top_k (sentence_tokenize text).length))) hnd
    apply map_getD_sublist [] (sentence_tokenize text) _ hsorted
    intro i hi
    have h1 : i ∈ topIndices scores (min top_k (sentence_tokenize text).length) :=
      (List.perm_insertionSort _ _).subset hi
    have h2 := topIndices_lt scores _ i h1
    omega

/-- Witness for C3: three sentences, `top_k = 2`, concrete scores. -/
theorem summarize_extract_embed_order_witness :
    ∃ sel ord : List Nat,
      (summarize_extract (fun _ => some [1/2, 3/4, 1/4])
          "Cats meow loud. Dogs bark louder. Fish swim quiet.".data 2).highlights =
        sel.map (fun i =>
          ⟨(sentence_tokenize "Cats meow loud. Dogs bark louder. Fish swim quiet.".data).getD i [],
           scoreAt [1/2, 3/4, 1/4] i⟩) ∧
      List.Pairwise (fun a b : ℚ => b ≤ a)
        ((summarize_extract (fun _ => some [1/2, 3/4, 1/4])
          "Cats meow loud. Dogs bark louder. Fish swim quiet.".data 2).highlights.map
          Highlight.score) ∧
      ord.Perm sel ∧
      List.Pairwise (fun i j : Nat => i ≤ j) ord ∧
      (summarize_extract (fun _ => some [1/2, 3/4, 1/4])
          "Cats meow loud. Dogs bark louder. Fish swim quiet.".data 2).summary =
        joinSpace (ord.map (fun i =>
          (sentence_tokenize "Cats meow loud. Dogs bark louder. Fish swim quiet.".data).getD i [])) ∧
      List.Sublist (ord.map (fun i =>
          (sentence_tokenize "Cats meow loud. Dogs bark louder. Fish swim quiet.".data).getD i []))
        (sentence_tokenize "Cats meow loud. Dogs bark louder. Fish swim quiet.".data) :=
  summarize_extract_embed_order (fun _ => some [1/2, 3/4, 1/4])
    "Cats meow loud. Dogs bark louder. Fish swim quiet.".data 2 [1/2, 3/4, 1/4]
    (by decide) rfl (by decide)

end AudioSummarizer
